import Mathlib

/-!
Verification of the fairscale-compass gauge pipeline.

Numbers are modelled as exact rationals (the JavaScript engine computes with
IEEE doubles; all the properties checked here concern the ideal arithmetic the
code writes down, with the double constant Math.PI embedded as the exact
rational value of that double).  Fallible code returns Option or Except.
-/

namespace Compass

/-! ## JavaScript numeric helpers -/

/-- JS Math.round: round half toward positive infinity. -/
def jround (x : ℚ) : ℤ := ⌊x + 1 / 2⌋

/-- The exact rational value of the IEEE-754 double Math.PI. -/
def jsPI : ℚ := 884279719003555 / 281474976710656

/-- The render-time clamp Math.max(0, Math.min(100, x)). -/
def clamp100 (x : ℚ) : ℚ := max 0 (min 100 x)

/-- JS `x || d` on numbers (0 is falsy). -/
def jsOrQ (x d : ℚ) : ℚ := if x = 0 then d else x

theorem jround_intCast (n : ℤ) : jround (n : ℚ) = n := by
  unfold jround
  rw [add_comm, Int.floor_add_int]
  norm_num

theorem jround_nonneg {x : ℚ} (hx : 0 ≤ x) : 0 ≤ jround x :=
  Int.le_floor.mpr (by push_cast; linarith)

theorem jround_le_of_le {x : ℚ} {n : ℤ} (hx : x ≤ n) : jround x ≤ n := by
  have h := Int.floor_le_floor (α := ℚ) (show x + 1 / 2 ≤ (n : ℚ) + 1 / 2 by linarith)
  unfold jround
  calc ⌊x + 1 / 2⌋ ≤ ⌊(n : ℚ) + 1 / 2⌋ := h
    _ = n := by rw [add_comm, Int.floor_add_int]; norm_num

/-! ## The lenient integer parser `intish`

`intish(v, def)` extracts the first match of the regex `-?\d+` from the string
and parses it, falling back to the default when there is no match. -/

/-- Longest run of leading decimal digits. -/
def leadDigits : List Char → List Char
  | [] => []
  | c :: cs => if c.isDigit then c :: leadDigits cs else []

/-- First match of `-?\d+` in the character list: returns the sign flag and
the digit run, scanning left to right exactly as the regex engine does. -/
def findIntTok : List Char → Option (Bool × List Char)
  | [] => none
  | c :: cs =>
    if c.isDigit then some (false, c :: leadDigits cs)
    else if c = '-' then
      match cs with
      | [] => none
      | d :: _ => if d.isDigit then some (true, leadDigits cs) else findIntTok cs
    else findIntTok cs

def digitVal (c : Char) : ℤ := (c.toNat : ℤ) - 48

/-- `intish` from the source: first embedded integer of the string, else the
default. -/
def intish (s : String) (d : ℤ) : ℤ :=
  match findIntTok s.data with
  | none => d
  | some (neg, ds) =>
    let n : ℤ := ds.foldl (fun a c => a * 10 + digitVal c) 0
    if neg then -n else n

/-! ## ScoreAggregator

The webhook response is a single tally object or an array of tally objects.
A field contributes only when it arrives as a number (`typeof x === "number"`),
modelled as `Option ℚ`; a missing or non-numeric field is `none`. -/

structure Tally where
  positive : Option ℚ := none
  neutral : Option ℚ := none
  negative : Option ℚ := none

/-- The webhook payload shape: one object or an ordered sequence. -/
inductive TallyInput
  | one (t : Tally)
  | many (ts : List Tally)

def fieldVal : Option ℚ → ℚ
  | some q => q
  | none => 0

def sumP : List Tally → ℚ
  | [] => 0
  | t :: ts => fieldVal t.positive + sumP ts

def sumNeu : List Tally → ℚ
  | [] => 0
  | t :: ts => fieldVal t.neutral + sumNeu ts

def sumNeg : List Tally → ℚ
  | [] => 0
  | t :: ts => fieldVal t.negative + sumNeg ts

/-- Accumulated P: the array branch sums, the single-object branch assigns. -/
def inP : TallyInput → ℚ
  | .one t => fieldVal t.positive
  | .many ts => sumP ts

def inNeu : TallyInput → ℚ
  | .one t => fieldVal t.neutral
  | .many ts => sumNeu ts

def inNeg : TallyInput → ℚ
  | .one t => fieldVal t.negative
  | .many ts => sumNeg ts

/-- `T = P + Neut + Neg` before the falsy fallback. -/
def tallySumT (x : TallyInput) : ℚ := inP x + inNeu x + inNeg x

/-- The aggregator of the /fetch handlers:
`const T = P + Neut + Neg || tweetsToSend.length || 0;`
`if (T > 0) displayScore = Math.round(((P - Neg + T) / (2 * T)) * 100);`
otherwise `displayScore` stays null. -/
def computeDisplayScore (x : TallyInput) (postCount : ℕ) : Option ℤ :=
  let P := inP x
  let Neg := inNeg x
  let T : ℚ := if tallySumT x = 0 then (postCount : ℚ) else tallySumT x
  if 0 < T then some (jround ((P - Neg + T) / (2 * T) * 100)) else none

/-- The /fetch handler branches on `displayScore !== null`. -/
inductive FetchOutcome
  | gaugePage (score : ℤ)
  | debugPage
deriving DecidableEq

def fetchResponse (x : TallyInput) (postCount : ℕ) : FetchOutcome :=
  match computeDisplayScore x postCount with
  | some sc => .gaugePage sc
  | none => .debugPage

/-! ### C1: the aggregation formula -/

/-- C1.  For every sentiment-tally input (single object or sequence) whose
summed counts give T = P + Neu + Neg > 0, the aggregator returns
round(((P - Neg + T) / (2T)) * 100); an all-positive tally yields 100, an
all-neutral tally yields 50, an all-negative tally yields 0, and for every
tally with non-negative fields the result lies in [0,100]. -/
theorem aggregator_score_formula (x : TallyInput) (postCount : ℕ)
    (hT : 0 < tallySumT x) :
    computeDisplayScore x postCount
      = some (jround ((inP x - inNeg x + tallySumT x) / (2 * tallySumT x) * 100))
    ∧ (inNeu x = 0 → inNeg x = 0 → computeDisplayScore x postCount = some 100)
    ∧ (inP x = 0 → inNeg x = 0 → computeDisplayScore x postCount = some 50)
    ∧ (inP x = 0 → inNeu x = 0 → computeDisplayScore x postCount = some 0)
    ∧ (0 ≤ inP x → 0 ≤ inNeu x → 0 ≤ inNeg x →
        ∀ v : ℤ, computeDisplayScore x postCount = some v → 0 ≤ v ∧ v ≤ 100) := by
  have hne : tallySumT x ≠ 0 := ne_of_gt hT
  have hform : computeDisplayScore x postCount
      = some (jround ((inP x - inNeg x + tallySumT x) / (2 * tallySumT x) * 100)) := by
    simp only [computeDisplayScore]
    rw [if_neg hne, if_pos hT]
  refine ⟨hform, ?_, ?_, ?_, ?_⟩
  · intro h1 h2
    rw [hform]
    have hP : tallySumT x = inP x := by unfold tallySumT; rw [h1, h2]; ring
    have hpne : inP x ≠ 0 := hP ▸ hne
    have heq : (inP x - inNeg x + tallySumT x) / (2 * tallySumT x) * 100 = 100 := by
      rw [h2, hP]
      field_simp
      ring
    rw [heq, show (100 : ℚ) = ((100 : ℤ) : ℚ) by norm_num, jround_intCast]
  · intro h1 h2
    rw [hform]
    have heq : (inP x - inNeg x + tallySumT x) / (2 * tallySumT x) * 100 = 50 := by
      rw [h1, h2]
      field_simp
      ring
    rw [heq, show (50 : ℚ) = ((50 : ℤ) : ℚ) by norm_num, jround_intCast]
  · intro h1 h2
    rw [hform]
    have hP : tallySumT x = inNeg x := by unfold tallySumT; rw [h1, h2]; ring
    have heq : (inP x - inNeg x + tallySumT x) / (2 * tallySumT x) * 100 = 0 := by
      rw [h1, hP]
      field_simp
    rw [heq, show (0 : ℚ) = ((0 : ℤ) : ℚ) by norm_num, jround_intCast]
  · intro hp hn hg v hv
    rw [hform] at hv
    have hT2 : 0 < 2 * tallySumT x := by linarith
    have hnum0 : 0 ≤ inP x - inNeg x + tallySumT x := by
      unfold tallySumT; linarith
    have hnum1 : inP x - inNeg x + tallySumT x ≤ 2 * tallySumT x := by
      unfold tallySumT at *; linarith
    have hq0 : 0 ≤ (inP x - inNeg x + tallySumT x) / (2 * tallySumT x) * 100 := by
      positivity
    have hq1 : (inP x - inNeg x + tallySumT x) / (2 * tallySumT x) * 100 ≤ 100 := by
      have hle : (inP x - inNeg x + tallySumT x) / (2 * tallySumT x) ≤ 1 :=
        (div_le_one hT2).mpr hnum1
      nlinarith
    have hv' : jround ((inP x - inNeg x + tallySumT x) / (2 * tallySumT x) * 100) = v :=
      Option.some.inj hv
    subst hv'
    constructor
    · exact jround_nonneg hq0
    · exact jround_le_of_le (by exact_mod_cast hq1)

/-- Witness for C1 at the concrete tally {Positive 3, Neutral 1, Negative 1}
with no submitted posts: T = 5 > 0 and the score is 70. -/
theorem aggregator_score_formula_witness :
    0 < tallySumT (.one ⟨some 3, some 1, some 1⟩)
    ∧ computeDisplayScore (.one ⟨some 3, some 1, some 1⟩) 0 = some 70 := by
  have hT : 0 < tallySumT (.one ⟨some 3, some 1, some 1⟩) := by
    norm_num [tallySumT, inP, inNeu, inNeg, fieldVal]
  refine ⟨hT, ?_⟩
  rw [(aggregator_score_formula (.one ⟨some 3, some 1, some 1⟩) 0 hT).1]
  norm_num [tallySumT, inP, inNeu, inNeg, fieldVal, jround]

/-! ### C10: negative tally fields flow through unchanged -/

/-- C10.  A tally field arriving as a negative number is added to the sum
unchanged (not zeroed as malformed); consequently the computed score can lie
outside [0,100] before rendering (it is clamped only at render time), and a
nonzero tally whose fields cancel to T = 0 silently falls back to the
submitted-post-count denominator. -/
theorem negative_fields_flow (q : ℚ) (hq : q < 0) :
    (inNeg (.many [⟨none, none, some q⟩]) = q
      ∧ inP (.many [⟨some q, none, none⟩]) = q
      ∧ inNeu (.one ⟨none, some q, none⟩) = q)
    ∧ computeDisplayScore (.many [⟨some 10, some 15, some (-20)⟩]) 0 = some 350
    ∧ ¬ ((350 : ℤ) ≤ 100)
    ∧ clamp100 350 = 100
    ∧ (tallySumT (.many [⟨some 5, none, some (-5)⟩]) = 0
        ∧ computeDisplayScore (.many [⟨some 5, none, some (-5)⟩]) 7
            = some (jround ((5 - (-5) + 7) / (2 * 7) * 100))) := by
  refine ⟨⟨?_, ?_, ?_⟩, ?_, by norm_num, ?_, ?_, ?_⟩
  · simp [inNeg, sumNeg, fieldVal]
  · simp [inP, sumP, fieldVal]
  · simp [inNeu, fieldVal]
  · norm_num [computeDisplayScore, tallySumT, inP, inNeu, inNeg,
      sumP, sumNeu, sumNeg, fieldVal, jround]
  · norm_num [clamp100]
  · norm_num [tallySumT, inP, inNeu, inNeg, sumP, sumNeu, sumNeg, fieldVal]
  · norm_num [computeDisplayScore, tallySumT, inP, inNeu, inNeg,
      sumP, sumNeu, sumNeg, fieldVal, jround]

/-- Witness for C10 at q = -3. -/
theorem negative_fields_flow_witness :
    (-3 : ℚ) < 0 ∧ inNeg (.many [⟨none, none, some (-3)⟩]) = -3 :=
  ⟨by norm_num, (negative_fields_flow (-3) (by norm_num)).1.1⟩

/-! ## RenderConfig thresholds

Two construction styles appear in the sources.  The /fetch handlers and the
renderers chain the clamps (each threshold is clamped to be at least the
previous one); the serverless router site of the gaugeHtml pipeline clamps
each threshold to [0,100] independently. -/

/-- Chained threshold construction (server.js renderGaugeBuffer, the /fetch
handlers, index.mjs renderCardPNG). -/
def chainedThresholds (a b c d : ℤ) : ℤ × ℤ × ℤ × ℤ :=
  let t1 := max 0 (min 100 a)
  let t2 := max t1 (min 100 b)
  let t3 := max t2 (min 100 c)
  let t4 := max t3 (min 100 d)
  (t1, t2, t3, t4)

/-- Unchained threshold construction (the router /fetch env block of the
gaugeHtml pipeline): each value is clamped to [0,100] independently. -/
def routerThresholds (a b c d : ℤ) : ℤ × ℤ × ℤ × ℤ :=
  (max 0 (min 100 a), max 0 (min 100 b), max 0 (min 100 c), max 0 (min 100 d))

/-- Thresholds from raw environment strings via `intish`, chained style. -/
def chainedThresholdsEnv (s1 s2 s3 s4 : String) : ℤ × ℤ × ℤ × ℤ :=
  chainedThresholds (intish s1 20) (intish s2 40) (intish s3 60) (intish s4 80)

/-- Thresholds from raw environment strings via `intish`, router style. -/
def routerThresholdsEnv (s1 s2 s3 s4 : String) : ℤ × ℤ × ℤ × ℤ :=
  routerThresholds (intish s1 20) (intish s2 40) (intish s3 60) (intish s4 80)

/-! ### C4: threshold ordering invariant -/

/-- C4 counterexample.  At the router construction site the clamps are not
chained: with THRESH_SB = "50" and THRESH_B = "10" the constructed thresholds
violate stronglyBearish ≤ bearish. -/
theorem router_thresholds_not_monotone :
    ¬ ((routerThresholdsEnv "50" "10" "60" "80").1
        ≤ (routerThresholdsEnv "50" "10" "60" "80").2.1) := by
  decide

/-- C4 amended.  For every raw configuration input, the chained construction
sites produce 0 ≤ t1 ≤ t2 ≤ t3 ≤ t4 ≤ 100; the router site only guarantees
that each threshold lies in [0,100], not that they are ordered. -/
theorem thresholds_invariants (s1 s2 s3 s4 : String) :
    (0 ≤ (chainedThresholdsEnv s1 s2 s3 s4).1
      ∧ (chainedThresholdsEnv s1 s2 s3 s4).1 ≤ (chainedThresholdsEnv s1 s2 s3 s4).2.1
      ∧ (chainedThresholdsEnv s1 s2 s3 s4).2.1 ≤ (chainedThresholdsEnv s1 s2 s3 s4).2.2.1
      ∧ (chainedThresholdsEnv s1 s2 s3 s4).2.2.1 ≤ (chainedThresholdsEnv s1 s2 s3 s4).2.2.2
      ∧ (chainedThresholdsEnv s1 s2 s3 s4).2.2.2 ≤ 100)
    ∧ (0 ≤ (routerThresholdsEnv s1 s2 s3 s4).1 ∧ (routerThresholdsEnv s1 s2 s3 s4).1 ≤ 100)
    ∧ (0 ≤ (routerThresholdsEnv s1 s2 s3 s4).2.1
        ∧ (routerThresholdsEnv s1 s2 s3 s4).2.1 ≤ 100)
    ∧ (0 ≤ (routerThresholdsEnv s1 s2 s3 s4).2.2.1
        ∧ (routerThresholdsEnv s1 s2 s3 s4).2.2.1 ≤ 100)
    ∧ (0 ≤ (routerThresholdsEnv s1 s2 s3 s4).2.2.2
        ∧ (routerThresholdsEnv s1 s2 s3 s4).2.2.2 ≤ 100) := by
  unfold chainedThresholdsEnv routerThresholdsEnv chainedThresholds routerThresholds
  dsimp only
  omega

/-! ## StateClassifier

The background-selection chain shared by all render sites:
`let bgFile = "strongly-bearish.png"; if (s >= tSB && s < tB) ... ` -/

/-- The bgFile selection chain from the source. -/
def pickBgFile (s : ℚ) (t1 t2 t3 t4 : ℤ) : String :=
  if (t1 : ℚ) ≤ s ∧ s < t2 then "bearish.png"
  else if (t2 : ℚ) ≤ s ∧ s < t3 then "neutral.png"
  else if (t3 : ℚ) ≤ s ∧ s < t4 then "bullish.png"
  else if (t4 : ℚ) ≤ s then "strongly-bullish.png"
  else "strongly-bearish.png"

inductive SentimentState
  | stronglyBearish
  | bearish
  | neutralBand
  | bullish
  | stronglyBullish
deriving DecidableEq

/-- Modelled from the spec: the half-open partition [0,t1) / [t1,t2) / [t2,t3)
/ [t3,t4) / [t4,100] described in section 4.2, for comparison with the
selection chain of the source. -/
def classifySpec (s : ℚ) (t1 t2 t3 t4 : ℤ) : SentimentState :=
  if s < t1 then .stronglyBearish
  else if s < t2 then .bearish
  else if s < t3 then .neutralBand
  else if s < t4 then .bullish
  else .stronglyBullish

/-- The 1:1 state-to-background-asset map. -/
def bgAsset : SentimentState → String
  | .stronglyBearish => "strongly-bearish.png"
  | .bearish => "bearish.png"
  | .neutralBand => "neutral.png"
  | .bullish => "bullish.png"
  | .stronglyBullish => "strongly-bullish.png"

/-! ### C5: the classifier implements the half-open partition -/

/-- C5.  For every score in [0,100] and ordered thresholds t1 ≤ t2 ≤ t3 ≤ t4,
the source selection chain realises exactly the half-open partition
[0,t1) → StronglyBearish, [t1,t2) → Bearish, [t2,t3) → Neutral,
[t3,t4) → Bullish, [t4,100] → StronglyBullish, each state mapped to its
background asset; with the default thresholds 20/40/60/80, score 0 gives
StronglyBearish, score 20 gives Bearish and score 100 gives StronglyBullish. -/
theorem classifier_partition (s : ℚ) (t1 t2 t3 t4 : ℤ)
    (hs0 : 0 ≤ s) (hs1 : s ≤ 100) (h12 : t1 ≤ t2) (h23 : t2 ≤ t3) (h34 : t3 ≤ t4) :
    pickBgFile s t1 t2 t3 t4 = bgAsset (classifySpec s t1 t2 t3 t4)
    ∧ pickBgFile 0 20 40 60 80 = "strongly-bearish.png"
    ∧ pickBgFile 20 20 40 60 80 = "bearish.png"
    ∧ pickBgFile 100 20 40 60 80 = "strongly-bullish.png" := by
  have h12q : (t1 : ℚ) ≤ (t2 : ℚ) := by exact_mod_cast h12
  have h23q : (t2 : ℚ) ≤ (t3 : ℚ) := by exact_mod_cast h23
  have h34q : (t3 : ℚ) ≤ (t4 : ℚ) := by exact_mod_cast h34
  refine ⟨?_, by norm_num [pickBgFile], by norm_num [pickBgFile],
    by norm_num [pickBgFile]⟩
  rcases lt_or_le s (t1 : ℚ) with h1 | h1
  · have hpick : pickBgFile s t1 t2 t3 t4 = "strongly-bearish.png" := by
      unfold pickBgFile
      rw [if_neg (by rintro ⟨ha, _⟩; linarith), if_neg (by rintro ⟨ha, _⟩; linarith),
        if_neg (by rintro ⟨ha, _⟩; linarith), if_neg (by intro ha; linarith)]
    have hcls : classifySpec s t1 t2 t3 t4 = .stronglyBearish := by
      unfold classifySpec
      rw [if_pos h1]
    rw [hpick, hcls]; rfl
  rcases lt_or_le s (t2 : ℚ) with h2 | h2
  · have hpick : pickBgFile s t1 t2 t3 t4 = "bearish.png" := by
      unfold pickBgFile
      rw [if_pos ⟨h1, h2⟩]
    have hcls : classifySpec s t1 t2 t3 t4 = .bearish := by
      unfold classifySpec
      rw [if_neg (not_lt.mpr h1), if_pos h2]
    rw [hpick, hcls]; rfl
  rcases lt_or_le s (t3 : ℚ) with h3 | h3
  · have hpick : pickBgFile s t1 t2 t3 t4 = "neutral.png" := by
      unfold pickBgFile
      rw [if_neg (by rintro ⟨_, hb⟩; linarith), if_pos ⟨h2, h3⟩]
    have hcls : classifySpec s t1 t2 t3 t4 = .neutralBand := by
      unfold classifySpec
      rw [if_neg (not_lt.mpr h1), if_neg (not_lt.mpr h2), if_pos h3]
    rw [hpick, hcls]; rfl
  rcases lt_or_le s (t4 : ℚ) with h4 | h4
  · have hpick : pickBgFile s t1 t2 t3 t4 = "bullish.png" := by
      unfold pickBgFile
      rw [if_neg (by rintro ⟨_, hb⟩; linarith), if_neg (by rintro ⟨_, hb⟩; linarith),
        if_pos ⟨h3, h4⟩]
    have hcls : classifySpec s t1 t2 t3 t4 = .bullish := by
      unfold classifySpec
      rw [if_neg (not_lt.mpr h1), if_neg (not_lt.mpr h2), if_neg (not_lt.mpr h3),
        if_pos h4]
    rw [hpick, hcls]; rfl
  · have hpick : pickBgFile s t1 t2 t3 t4 = "strongly-bullish.png" := by
      unfold pickBgFile
      rw [if_neg (by rintro ⟨_, hb⟩; linarith), if_neg (by rintro ⟨_, hb⟩; linarith),
        if_neg (by rintro ⟨_, hb⟩; linarith), if_pos h4]
    have hcls : classifySpec s t1 t2 t3 t4 = .stronglyBullish := by
      unfold classifySpec
      rw [if_neg (not_lt.mpr h1), if_neg (not_lt.mpr h2), if_neg (not_lt.mpr h3),
        if_neg (not_lt.mpr h4)]
    rw [hpick, hcls]; rfl

/-- Witness for C5 at score 37 with the default thresholds: neutral band. -/
theorem classifier_partition_witness :
    (0 : ℚ) ≤ 37 ∧ (37 : ℚ) ≤ 100 ∧ (20 : ℤ) ≤ 40 ∧ (40 : ℤ) ≤ 60 ∧ (60 : ℤ) ≤ 80
    ∧ pickBgFile 37 20 40 60 80 = bgAsset (classifySpec 37 20 40 60 80) := by
  refine ⟨by norm_num, by norm_num, by norm_num, by norm_num, by norm_num, ?_⟩
  exact (classifier_partition 37 20 40 60 80 (by norm_num) (by norm_num)
    (by norm_num) (by norm_num) (by norm_num)).1

/-! ## GaugeGeometry

All render sites derive the same drawable box and circle:
`rect = {x: left, y: top, w: max(0, W-left-right), h: max(0, H-top-bottom)}`,
`r = max(1, min(rect.w/2, rect.h))`, `cx = Math.round(rect.x + rect.w/2)`,
`cy = Math.round(rect.y + rect.h)`, with the fixed angular domain
`start = Math.PI`, `end = 2*Math.PI`. -/

structure Box where
  x : ℤ
  y : ℤ
  w : ℤ
  h : ℤ
deriving DecidableEq

def drawRect (W H left right top bottom : ℤ) : Box :=
  ⟨left, top, max 0 (W - left - right), max 0 (H - top - bottom)⟩

def gaugeR (bx : Box) : ℚ := max 1 (min ((bx.w : ℚ) / 2) (bx.h : ℚ))

def gaugeCx (bx : Box) : ℤ := jround ((bx.x : ℚ) + (bx.w : ℚ) / 2)

def gaugeCy (bx : Box) : ℤ := jround ((bx.y : ℚ) + (bx.h : ℚ))

def trackWpx (r : ℚ) : ℤ := max 6 (jround (r * (11 / 100)))

def valueWpx (r : ℚ) : ℤ := max 4 (jround (r * (8 / 100)))

def startAngle : ℚ := jsPI

def endAngle : ℚ := 2 * jsPI

/-- `thetaEnd = start + (v/100)*(end-start)`; also the needle angle. -/
def thetaOf (v : ℚ) : ℚ := startAngle + v / 100 * (endAngle - startAngle)

/-- `capAngle = (valueW/2) / r`. -/
def capAngleOf (vw : ℤ) (r : ℚ) : ℚ := ((vw : ℚ) / 2) / r

/-! ## Needle geometry -/

/-- Default needle radii:
`r1 = r - max(10, round(r*0.30))`, `r2 = r + max(8, round(r*0.05))`. -/
def needleDefaults (r : ℚ) : ℚ × ℚ :=
  (r - (max 10 (jround (r * (30 / 100))) : ℤ), r + (max 8 (jround (r * (5 / 100))) : ℤ))

/-- Rescale around the midpoint: `mid = (r1+r2)/2`, `half = (r2-r1)/2 * k`. -/
def needleScaled (r k : ℚ) : ℚ × ℚ :=
  let p := needleDefaults r
  let mid := (p.1 + p.2) / 2
  let half := (p.2 - p.1) / 2
  (mid - half * k, mid + half * k)

/-! ### C7: needle rescaling preserves the midpoint and scales the length -/

/-- C7.  For every radius r ≥ 1 and lengthScale k ≥ 0.1, rescaling the default
needle radii around their midpoint preserves the midpoint and multiplies the
length by k; lengthScale 1 reproduces the defaults and lengthScale 2 doubles
the length. -/
theorem needle_rescale_midpoint (r k : ℚ) (hr : 1 ≤ r) (hk : 1 / 10 ≤ k) :
    ((needleScaled r k).1 + (needleScaled r k).2) / 2
        = ((needleDefaults r).1 + (needleDefaults r).2) / 2
    ∧ (needleScaled r k).2 - (needleScaled r k).1
        = k * ((needleDefaults r).2 - (needleDefaults r).1)
    ∧ needleScaled r 1 = needleDefaults r
    ∧ (needleScaled r 2).2 - (needleScaled r 2).1
        = 2 * ((needleDefaults r).2 - (needleDefaults r).1) := by
  unfold needleScaled
  refine ⟨by ring, by ring, ?_, by ring⟩
  rw [Prod.mk.injEq]
  constructor <;> ring

/-- Witness for C7 at r = 300, k = 2. -/
theorem needle_rescale_midpoint_witness :
    (1 : ℚ) ≤ 300 ∧ (1 / 10 : ℚ) ≤ 2
    ∧ ((needleScaled 300 2).1 + (needleScaled 300 2).2) / 2
        = ((needleDefaults 300).1 + (needleDefaults 300).2) / 2
    ∧ (needleScaled 300 2).2 - (needleScaled 300 2).1
        = 2 * ((needleDefaults 300).2 - (needleDefaults 300).1) := by
  have h := needle_rescale_midpoint 300 2 (by norm_num) (by norm_num)
  exact ⟨by norm_num, by norm_num, h.1, h.2.1⟩

/-! ### C8: the drawable box and circle -/

/-- C8 counterexample.  The sources compute `cx = Math.round(x + w/2)`, not
the exact `x + w/2` of the claim: for a 601 x 600 image with zero insets the
code yields cx = 301 while x + w/2 = 300.5. -/
theorem geometry_cx_rounded :
    gaugeCx (drawRect 601 600 0 0 0 0) = 301
    ∧ ((drawRect 601 600 0 0 0 0).x : ℚ) + ((drawRect 601 600 0 0 0 0).w : ℚ) / 2
        = 601 / 2
    ∧ ((301 : ℚ) ≠ 601 / 2) := by
  refine ⟨?_, by norm_num [drawRect], by norm_num⟩
  norm_num [gaugeCx, drawRect, jround]

/-- C8 amended.  Geometry is computed from the drawable box with w and h
clamped to be nonnegative, `cy = y + h`, `cx = round(x + w/2)` (within 1/2 of
x + w/2, and exactly x + w/2 whenever w is even), and
`r = max(1, min(w/2, h))`; for a 600 x 600 box with zero insets, r = 300. -/
theorem geometry_formulas (W H left right top bottom : ℤ) :
    (0 ≤ (drawRect W H left right top bottom).w
      ∧ 0 ≤ (drawRect W H left right top bottom).h)
    ∧ gaugeCy (drawRect W H left right top bottom)
        = top + (drawRect W H left right top bottom).h
    ∧ (((gaugeCx (drawRect W H left right top bottom) : ℚ)
          - (((drawRect W H left right top bottom).x : ℚ)
              + ((drawRect W H left right top bottom).w : ℚ) / 2)) ≤ 1 / 2
        ∧ -(1 / 2) ≤ ((gaugeCx (drawRect W H left right top bottom) : ℚ)
          - (((drawRect W H left right top bottom).x : ℚ)
              + ((drawRect W H left right top bottom).w : ℚ) / 2)))
    ∧ ((drawRect W H left right top bottom).w % 2 = 0 →
        (gaugeCx (drawRect W H left right top bottom) : ℚ)
          = ((drawRect W H left right top bottom).x : ℚ)
              + ((drawRect W H left right top bottom).w : ℚ) / 2)
    ∧ gaugeR (drawRect W H left right top bottom)
        = max 1 (min (((drawRect W H left right top bottom).w : ℚ) / 2)
            ((drawRect W H left right top bottom).h : ℚ))
    ∧ 1 ≤ gaugeR (drawRect W H left right top bottom)
    ∧ gaugeR (drawRect 600 600 0 0 0 0) = 300 := by
  set bx := drawRect W H left right top bottom with hbx
  refine ⟨⟨le_max_left 0 _, le_max_left 0 _⟩, ?_, ?_, ?_, rfl, le_max_left 1 _, ?_⟩
  · show jround ((bx.y : ℚ) + (bx.h : ℚ)) = top + bx.h
    rw [show ((bx.y : ℚ) + (bx.h : ℚ)) = (((bx.y + bx.h : ℤ)) : ℚ) by push_cast; ring,
      jround_intCast]
    rw [hbx]
    rfl
  · constructor
    · show (jround ((bx.x : ℚ) + (bx.w : ℚ) / 2) : ℚ) - _ ≤ 1 / 2
      have hfl := Int.floor_le ((bx.x : ℚ) + (bx.w : ℚ) / 2 + 1 / 2)
      unfold jround
      linarith
    · show -(1 / 2) ≤ (jround ((bx.x : ℚ) + (bx.w : ℚ) / 2) : ℚ) - _
      have hfl := Int.lt_floor_add_one ((bx.x : ℚ) + (bx.w : ℚ) / 2 + 1 / 2)
      unfold jround
      linarith
  · intro hev
    obtain ⟨m, hm⟩ : ∃ m : ℤ, bx.w = 2 * m := ⟨bx.w / 2, by omega⟩
    show (jround ((bx.x : ℚ) + (bx.w : ℚ) / 2) : ℚ) = (bx.x : ℚ) + (bx.w : ℚ) / 2
    have harg : (bx.x : ℚ) + (bx.w : ℚ) / 2 = ((bx.x + m : ℤ) : ℚ) := by
      rw [hm]; push_cast; ring
    rw [harg, jround_intCast]
  · norm_num [gaugeR, drawRect]

/-- Witness for C8 with the even-width 600 x 600 box. -/
theorem geometry_formulas_witness :
    (drawRect 600 600 0 0 0 0).w % 2 = 0
    ∧ (gaugeCx (drawRect 600 600 0 0 0 0) : ℚ)
        = ((drawRect 600 600 0 0 0 0).x : ℚ) + ((drawRect 600 600 0 0 0 0).w : ℚ) / 2 := by
  have h := (geometry_formulas 600 600 0 0 0 0).2.2.2.1 (by decide)
  exact ⟨by decide, h⟩

/-! ## Segmented value arc (rasterizer backend)

renderCardPNG subdivides the post-cap remainder of the track into 24 slices.
Each drawn slice strokes a flat color: the channel-wise rounded average of
colAt at its two endpoints. -/

structure RGB where
  r : ℚ
  g : ℚ
  b : ℚ
deriving DecidableEq

structure RGBi where
  r : ℤ
  g : ℤ
  b : ℤ
deriving DecidableEq

def gradStop0 : RGB := ⟨217, 83, 79⟩

def gradStop1 : RGB := ⟨240, 173, 78⟩

def gradStop2 : RGB := ⟨92, 184, 92⟩

def lerpRGB (c0 c1 : RGB) (u : ℚ) : RGB :=
  ⟨c0.r + (c1.r - c0.r) * u, c0.g + (c1.g - c0.g) * u, c0.b + (c1.b - c0.b) * u⟩

/-- `colAt` from renderCardPNG: 3-stop ramp, channels blended independently,
first piece for t in [0, 0.5], second for t in (0.5, 1]. -/
def colAt (t : ℚ) : RGB :=
  if t ≤ 1 / 2 then lerpRGB gradStop0 gradStop1 (t / (1 / 2))
  else lerpRGB gradStop1 gradStop2 ((t - 1 / 2) / (1 / 2))

/-- The `strokeArc` flat color: channel-wise rounded average of the two
endpoint colors. -/
def strokeMid (c1 c2 : RGB) : RGBi :=
  ⟨jround ((c1.r + c2.r) / 2), jround ((c1.g + c2.g) / 2), jround ((c1.b + c2.b) / 2)⟩

def roundRGB (c : RGB) : RGBi := ⟨jround c.r, jround c.g, jround c.b⟩

structure Seg where
  idx : ℕ
  t0 : ℚ
  t1 : ℚ
  a0 : ℚ
  a1 : ℚ
  color : RGBi
deriving DecidableEq

/-- The slice loop of renderCardPNG: for i < 24, `t0 = i/segs`,
`a0 = usableStart + t0*span`; break before drawing once `a0 >= thetaEnd`,
clamp `a1` to `thetaEnd`, and break after drawing once `a1 >= thetaEnd`. -/
def sliceSegsAux (te us span : ℚ) : ℕ → ℕ → List Seg
  | 0, _ => []
  | fuel + 1, i =>
    let t0 : ℚ := (i : ℚ) / 24
    let t1 : ℚ := ((i : ℚ) + 1) / 24
    let a0 := us + t0 * span
    let a1 := us + t1 * span
    if te ≤ a0 then []
    else
      let sg : Seg := ⟨i, t0, t1, a0, min a1 te, strokeMid (colAt t0) (colAt t1)⟩
      if te ≤ a1 then [sg] else sg :: sliceSegsAux te us span fuel (i + 1)

def sliceSegs (te us span : ℚ) : List Seg := sliceSegsAux te us span 24 0

/-- usableStart = start + capAngle, as computed for the given radius. -/
def usOf (r : ℚ) : ℚ := startAngle + capAngleOf (valueWpx r) r

/-- span = (end - start) - capAngle, as computed for the given radius. -/
def spanOf (r : ℚ) : ℚ := (endAngle - startAngle) - capAngleOf (valueWpx r) r

/-- Fractional angular position across the full track span [start, end];
this is the `t` of the claim, not the one of the code. -/
def fullTrackT (a : ℚ) : ℚ := (a - startAngle) / (endAngle - startAngle)

theorem colAt_first {t : ℚ} (h : t ≤ 1 / 2) :
    colAt t = lerpRGB gradStop0 gradStop1 (t / (1 / 2)) := by
  unfold colAt
  rw [if_pos h]

theorem colAt_second {t : ℚ} (h : 1 / 2 ≤ t) :
    colAt t = lerpRGB gradStop1 gradStop2 ((t - 1 / 2) / (1 / 2)) := by
  unfold colAt
  rcases eq_or_lt_of_le h with he | hlt
  · rw [if_pos (le_of_eq he.symm), ← he]
    unfold lerpRGB gradStop0 gradStop1 gradStop2
    rw [RGB.mk.injEq]
    norm_num
  · rw [if_neg (not_le.mpr hlt)]

/-- On a slice that does not straddle t = 1/2, the average of the endpoint
colors is the color at the t-midpoint, channel by channel. -/
theorem colAt_avg {t0 t1 : ℚ} (h : t1 ≤ 1 / 2 ∨ 1 / 2 ≤ t0) (hle : t0 ≤ t1) :
    (colAt t0).r + (colAt t1).r = 2 * (colAt ((t0 + t1) / 2)).r
    ∧ (colAt t0).g + (colAt t1).g = 2 * (colAt ((t0 + t1) / 2)).g
    ∧ (colAt t0).b + (colAt t1).b = 2 * (colAt ((t0 + t1) / 2)).b := by
  rcases h with h | h
  · have h0 : t0 ≤ 1 / 2 := le_trans hle h
    have hm : (t0 + t1) / 2 ≤ 1 / 2 := by linarith
    rw [colAt_first h0, colAt_first h, colAt_first hm]
    unfold lerpRGB gradStop0 gradStop1
    refine ⟨?_, ?_, ?_⟩ <;> (dsimp only; ring)
  · have h1 : 1 / 2 ≤ t1 := le_trans h hle
    have hm : 1 / 2 ≤ (t0 + t1) / 2 := by linarith
    rw [colAt_second h, colAt_second h1, colAt_second hm]
    unfold lerpRGB gradStop1 gradStop2
    refine ⟨?_, ?_, ?_⟩ <;> (dsimp only; ring)

/-- The flat slice color of the code is the rounded ramp color at the slice
t-midpoint, for every grid slice index j < 24 (the grid is aligned with the
ramp breakpoint at j = 12, so no slice straddles it). -/
theorem strokeMid_midpoint (j : ℕ) (hj : j < 24) :
    strokeMid (colAt ((j : ℚ) / 24)) (colAt (((j : ℚ) + 1) / 24))
      = roundRGB (colAt (((j : ℚ) / 24 + ((j : ℚ) + 1) / 24) / 2)) := by
  have hle : (j : ℚ) / 24 ≤ ((j : ℚ) + 1) / 24 := by
    apply div_le_div_of_nonneg_right _ (by norm_num)
    · linarith
  have hbr : ((j : ℚ) + 1) / 24 ≤ 1 / 2 ∨ 1 / 2 ≤ (j : ℚ) / 24 := by
    rcases le_or_lt j 11 with h | h
    · left
      have : (j : ℚ) ≤ 11 := by exact_mod_cast h
      linarith
    · right
      have : (12 : ℚ) ≤ (j : ℚ) := by exact_mod_cast h
      linarith
  obtain ⟨hrr, hgg, hbb⟩ := colAt_avg hbr hle
  unfold strokeMid roundRGB
  rw [RGBi.mk.injEq]
  refine ⟨?_, ?_, ?_⟩
  · rw [show ((colAt ((j : ℚ) / 24)).r + (colAt (((j : ℚ) + 1) / 24)).r) / 2
        = (colAt (((j : ℚ) / 24 + ((j : ℚ) + 1) / 24) / 2)).r by linarith]
  · rw [show ((colAt ((j : ℚ) / 24)).g + (colAt (((j : ℚ) + 1) / 24)).g) / 2
        = (colAt (((j : ℚ) / 24 + ((j : ℚ) + 1) / 24) / 2)).g by linarith]
  · rw [show ((colAt ((j : ℚ) / 24)).b + (colAt (((j : ℚ) + 1) / 24)).b) / 2
        = (colAt (((j : ℚ) / 24 + ((j : ℚ) + 1) / 24) / 2)).b by linarith]

/-- Every segment produced by the slice loop carries the grid data of its
index: grid endpoints, clamped end angle, endpoint-average color, and a start
angle strictly before thetaEnd. -/
theorem sliceSegsAux_mem (te us span : ℚ) :
    ∀ fuel i, ∀ sg ∈ sliceSegsAux te us span fuel i,
      i ≤ sg.idx ∧ sg.idx < i + fuel
      ∧ sg.t0 = (sg.idx : ℚ) / 24
      ∧ sg.t1 = ((sg.idx : ℚ) + 1) / 24
      ∧ sg.a0 = us + sg.t0 * span
      ∧ sg.a1 = min (us + sg.t1 * span) te
      ∧ sg.color = strokeMid (colAt sg.t0) (colAt sg.t1)
      ∧ sg.a0 < te := by
  intro fuel
  induction fuel with
  | zero =>
    intro i sg hsg
    simp [sliceSegsAux] at hsg
  | succ n ih =>
    intro i sg hsg
    simp only [sliceSegsAux] at hsg
    by_cases h1 : te ≤ us + (i : ℚ) / 24 * span
    · rw [if_pos h1] at hsg
      simp at hsg
    · rw [if_neg h1] at hsg
      by_cases h2 : te ≤ us + ((i : ℚ) + 1) / 24 * span
      · rw [if_pos h2] at hsg
        rw [List.mem_singleton] at hsg
        subst hsg
        refine ⟨le_refl i, by dsimp only; omega, rfl, rfl, rfl, rfl, rfl, not_le.mp h1⟩
      · rw [if_neg h2] at hsg
        rcases List.mem_cons.mp hsg with heq | hmem
        · subst heq
          refine ⟨le_refl i, by dsimp only; omega, rfl, rfl, rfl, rfl, rfl, not_le.mp h1⟩
        · obtain ⟨hlo, hhi, rest⟩ := ih (i + 1) sg hmem
          exact ⟨by omega, by omega, rest⟩

/-- When the loop is entered with its start angle before thetaEnd and thetaEnd
does not exceed the end of the grid, the drawn list is nonempty, starts at the
entry angle, and its final drawn slice ends exactly at thetaEnd. -/
theorem sliceSegsAux_cover (te us span : ℚ) :
    ∀ (fuel i : ℕ), i + fuel = 24 → us + (i : ℚ) / 24 * span < te → te ≤ us + span →
      sliceSegsAux te us span fuel i ≠ []
      ∧ (sliceSegsAux te us span fuel i).head?.map Seg.a0
          = some (us + (i : ℚ) / 24 * span)
      ∧ (sliceSegsAux te us span fuel i).getLast?.map Seg.a1 = some te := by
  intro fuel
  induction fuel with
  | zero =>
    intro i hi ha hte
    exfalso
    have hiq : (i : ℚ) = 24 := by
      have h24 : i = 24 := by omega
      subst h24
      norm_num
    rw [hiq] at ha
    norm_num at ha
    linarith
  | succ n ih =>
    intro i hi ha hte
    simp only [sliceSegsAux]
    rw [if_neg (not_le.mpr ha)]
    by_cases h2 : te ≤ us + ((i : ℚ) + 1) / 24 * span
    · rw [if_pos h2]
      refine ⟨by simp, by simp, ?_⟩
      simp [List.getLast?_singleton, min_eq_right h2]
    · rw [if_neg h2]
      have hcast : ((i + 1 : ℕ) : ℚ) = (i : ℚ) + 1 := by push_cast; ring
      have hstep : us + ((i + 1 : ℕ) : ℚ) / 24 * span < te := by
        rw [hcast]; exact not_le.mp h2
      obtain ⟨hne, hhead, hlast⟩ := ih (i + 1) (by omega) hstep hte
      obtain ⟨b, l, hbl⟩ := List.exists_cons_of_ne_nil hne
      refine ⟨by simp, by simp, ?_⟩
      rw [hbl, List.getLast?_cons_cons, ← hbl]
      exact hlast

/-- With thetaEnd at the very end of the grid and a positive span, the loop
draws all of its 24 slices. -/
theorem sliceSegsAux_length_full (te us span : ℚ) (hspan : 0 < span)
    (hte : te = us + span) :
    ∀ fuel i, i + fuel = 24 → (sliceSegsAux te us span fuel i).length = fuel := by
  intro fuel
  induction fuel with
  | zero =>
    intro i hi
    simp [sliceSegsAux]
  | succ n ih =>
    intro i hi
    have hi23 : i ≤ 23 := by omega
    have hiq : (i : ℚ) ≤ 23 := by exact_mod_cast hi23
    simp only [sliceSegsAux]
    have h1 : ¬ (te ≤ us + (i : ℚ) / 24 * span) := by
      rw [hte]
      push_neg
      have hlt : (i : ℚ) / 24 * span < 1 * span := by
        apply mul_lt_mul_of_pos_right _ hspan
        linarith
      linarith
    rw [if_neg h1]
    by_cases h2 : te ≤ us + ((i : ℚ) + 1) / 24 * span
    · have h4 : (1 : ℚ) ≤ ((i : ℚ) + 1) / 24 := by
        by_contra hc
        push_neg at hc
        rw [hte] at h2
        nlinarith
      have hi23q : (23 : ℚ) ≤ (i : ℚ) := by linarith
      have hieq : i = 23 := by
        have h23 : (23 : ℕ) ≤ i := by exact_mod_cast hi23q
        omega
      have hn : n = 0 := by omega
      rw [if_pos h2]
      simp [hn]
    · rw [if_neg h2]
      simp only [List.length_cons]
      rw [ih (i + 1) (by omega)]

theorem capAngle_bounds (r : ℚ) (hr : 1 ≤ r) :
    0 < capAngleOf (valueWpx r) r ∧ capAngleOf (valueWpx r) r < jsPI := by
  have hr0 : 0 < r := by linarith
  have hvw4 : (4 : ℤ) ≤ valueWpx r := le_max_left _ _
  have hvw0 : (0 : ℚ) < (valueWpx r : ℚ) := by
    have : (0 : ℤ) < valueWpx r := by omega
    exact_mod_cast this
  constructor
  · unfold capAngleOf
    positivity
  · have hjr : (jround (r * (8 / 100)) : ℚ) ≤ r * (8 / 100) + 1 / 2 := Int.floor_le _
    have hvwle : (valueWpx r : ℚ) ≤ max 4 (r * (8 / 100) + 1 / 2) := by
      unfold valueWpx
      push_cast
      exact max_le_max (le_refl _) hjr
    have hvwlt : (valueWpx r : ℚ) < 6 * r := by
      apply lt_of_le_of_lt hvwle
      apply max_lt <;> nlinarith
    have hpi3 : (3 : ℚ) < jsPI := by norm_num [jsPI]
    unfold capAngleOf
    rw [div_lt_iff₀ hr0]
    nlinarith

theorem usOf_add_spanOf (r : ℚ) : usOf r + spanOf r = endAngle := by
  unfold usOf spanOf
  ring

/-! ### C2: the segmented value arc -/

/-- C2 amended.  When the value arc extends past the cap segment, the
post-cap remainder of the track is subdivided on a 24-slice (at least 20)
equal-angle grid; every drawn slice is at most one grid step wide and either
ends at thetaEnd or is a full grid step; each drawn slice is filled with the
flat color obtained by channel-wise rounding of the 3-stop ramp linearly
interpolated at the slice t-midpoint, where t is the fractional position
across the post-cap remainder span (start+capAngle to end), not across the
full track span; subdivision stops at thetaEnd, the drawn slices start at
start+capAngle and the final one is clipped to end exactly at thetaEnd, and a
full arc draws all 24 slices. -/
theorem slice_subdivision (r te : ℚ) (hr : 1 ≤ r) (hus : usOf r < te)
    (hte : te ≤ endAngle) :
    (∀ sg ∈ sliceSegs te (usOf r) (spanOf r),
        sg.idx < 24
        ∧ sg.a1 - sg.a0 ≤ spanOf r / 24
        ∧ (sg.a1 = te ∨ sg.a1 - sg.a0 = spanOf r / 24)
        ∧ sg.a0 < te ∧ sg.a1 ≤ te
        ∧ sg.color = roundRGB (colAt ((sg.t0 + sg.t1) / 2)))
    ∧ sliceSegs te (usOf r) (spanOf r) ≠ []
    ∧ (sliceSegs te (usOf r) (spanOf r)).head?.map Seg.a0 = some (usOf r)
    ∧ (sliceSegs te (usOf r) (spanOf r)).getLast?.map Seg.a1 = some te
    ∧ (te = endAngle → (sliceSegs te (usOf r) (spanOf r)).length = 24) := by
  have hcap := capAngle_bounds r hr
  have hspan : 0 < spanOf r := by
    unfold spanOf endAngle startAngle
    have := hcap.2
    linarith
  have hid : usOf r + spanOf r = endAngle := usOf_add_spanOf r
  have h0 : usOf r + ((0 : ℕ) : ℚ) / 24 * spanOf r = usOf r := by norm_num
  refine ⟨?_, ?_, ?_, ?_, ?_⟩
  · intro sg hsg
    obtain ⟨h0le, hlt, ht0, ht1, ha0, ha1, hcol, ha0lt⟩ :=
      sliceSegsAux_mem te (usOf r) (spanOf r) 24 0 sg hsg
    have hidx : sg.idx < 24 := by omega
    have hwidth : usOf r + ((sg.idx : ℚ) + 1) / 24 * spanOf r
        - (usOf r + (sg.idx : ℚ) / 24 * spanOf r) = spanOf r / 24 := by ring
    refine ⟨hidx, ?_, ?_, ha0lt, ?_, ?_⟩
    · rw [ha0, ha1, ht0, ht1]
      have hmin := min_le_left (usOf r + ((sg.idx : ℚ) + 1) / 24 * spanOf r) te
      linarith
    · rw [ha0, ha1, ht0, ht1]
      rcases le_total (usOf r + ((sg.idx : ℚ) + 1) / 24 * spanOf r) te with hm | hm
      · right
        rw [min_eq_left hm]
        linarith
      · left
        rw [min_eq_right hm]
    · rw [ha1]
      exact min_le_right _ _
    · rw [hcol, ht0, ht1]
      exact strokeMid_midpoint sg.idx hidx
  · have := (sliceSegsAux_cover te (usOf r) (spanOf r) 24 0 (by norm_num)
      (by rw [h0]; exact hus) (by rw [hid]; exact hte)).1
    exact this
  · have := (sliceSegsAux_cover te (usOf r) (spanOf r) 24 0 (by norm_num)
      (by rw [h0]; exact hus) (by rw [hid]; exact hte)).2.1
    rw [h0] at this
    exact this
  · exact (sliceSegsAux_cover te (usOf r) (spanOf r) 24 0 (by norm_num)
      (by rw [h0]; exact hus) (by rw [hid]; exact hte)).2.2
  · intro hteq
    exact sliceSegsAux_length_full te (usOf r) (spanOf r) hspan
      (by rw [hteq, ← hid]) 24 0 (by norm_num)

/-- Witness for C2 at r = 300 and score 50 (thetaEnd = 3pi/2). -/
theorem slice_subdivision_witness :
    (1 : ℚ) ≤ 300 ∧ usOf 300 < thetaOf 50 ∧ thetaOf 50 ≤ endAngle
    ∧ (sliceSegs (thetaOf 50) (usOf 300) (spanOf 300)).getLast?.map Seg.a1
        = some (thetaOf 50) := by
  have h1 : (1 : ℚ) ≤ 300 := by norm_num
  have h2 : usOf 300 < thetaOf 50 := by
    norm_num [usOf, thetaOf, startAngle, endAngle, capAngleOf, valueWpx, jround, jsPI]
  have h3 : thetaOf 50 ≤ endAngle := by
    norm_num [thetaOf, startAngle, endAngle, jsPI]
  exact ⟨h1, h2, h3, (slice_subdivision 300 (thetaOf 50) h1 h2 h3).2.2.2.1⟩

/-- C2 counterexample.  The interpolation parameter of the code runs across
the post-cap remainder, not the full track span: for r = 300 and a full value
arc, the first drawn slice is stroked with flat color (218, 87, 79), while
the ramp interpolated at that slice angular midpoint using the fractional
position across the full track span gives the different color (219, 89, 79)
(exact red channel not 218 even before rounding). -/
theorem slice_color_not_full_track :
    ((sliceSegs endAngle (usOf 300) (spanOf 300)).head?.map Seg.color)
      = some ⟨218, 87, 79⟩
    ∧ roundRGB (colAt (fullTrackT (usOf 300 + spanOf 300 / 48))) = ⟨219, 89, 79⟩
    ∧ (colAt (fullTrackT (usOf 300 + spanOf 300 / 48))).r ≠ (218 : ℚ) := by
  refine ⟨?_, ?_, ?_⟩
  · norm_num [sliceSegs, sliceSegsAux, usOf, spanOf, startAngle, endAngle,
      capAngleOf, valueWpx, jround, jsPI, strokeMid, colAt, lerpRGB,
      gradStop0, gradStop1, gradStop2]
  · norm_num [roundRGB, colAt, lerpRGB, fullTrackT, usOf, spanOf, startAngle,
      endAngle, capAngleOf, valueWpx, jround, jsPI, gradStop0, gradStop1, gradStop2]
  · norm_num [colAt, lerpRGB, fullTrackT, usOf, spanOf, startAngle,
      endAngle, capAngleOf, valueWpx, jround, jsPI, gradStop0, gradStop1, gradStop2]

/-! ## GaugeRenderer

Each renderer is modelled as the sequence of draw calls it issues, with the
geometric parameters each call receives.  Three renderers appear in the
sources: the client canvas script (drawTrack / drawValue / drawNeedle), the
serverless raster renderCardPNG (track, cap arc, flat slices, needle), and
the express raster renderGaugeBuffer (background, avatar, handle and needle
only). -/

inductive Fill
  | flat (c : RGBi)
  | conic (angle0 : ℚ)
deriving DecidableEq

inductive DrawOp
  | background (file : String) (w h : ℤ)
  | avatar (x y size : ℤ)
  | handleText (text : String) (x y fontPx : ℤ) (color : String)
  | track (cx cy : ℤ) (r a0 a1 : ℚ) (lineW : ℤ)
  | valueArc (cx cy : ℤ) (r a0 a1 : ℚ) (lineW : ℤ) (fill : Fill)
  | needle (cx cy : ℤ) (angle r1 r2 : ℚ) (lineW : ℤ)
deriving DecidableEq

/-- The raw numeric configuration each render site reads from the
environment (after the lenient parses), before the site-local clamps. -/
structure RenderConfig where
  left : ℤ
  right : ℤ
  top : ℤ
  bottom : ℤ
  tSB : ℤ
  tB : ℤ
  tN : ℤ
  tBU : ℤ
  needleLenScale : ℚ
  needleWidthFrac : ℚ
  pfpX : ℤ
  pfpY : ℤ
  pfpSize : ℤ
  handleX : ℤ
  handleY : ℤ
  handleFontPx : ℤ
  handleColor : String

/-- `Math.max(0.1, Number(NEEDLE_LEN_SCALE) || 1.0)`, as at every site. -/
def deriveNeedleScale (cfg : RenderConfig) : ℚ :=
  max (1 / 10) (jsOrQ cfg.needleLenScale 1)

/-- `Math.max(0.003, Number(NEEDLE_WIDTH_FRAC) || 0.025)`, as at every site. -/
def deriveNeedleFrac (cfg : RenderConfig) : ℚ :=
  max (3 / 1000) (jsOrQ cfg.needleWidthFrac (25 / 1000))

def redFill : Fill := .flat ⟨217, 83, 79⟩

/-- The client canvas pipeline: the /fetch handler chains the threshold
clamps, clamps the score, picks the background, and the inline script draws
background, optional avatar, handle text, track, value arc (single red arc
when the arc ends inside the cap, else cap arc plus one conic-gradient
stroke), and needle. -/
def clientOps (cfg : RenderConfig) (score : ℤ) (username : String)
    (avatarShown : Bool) (W H : ℤ) : List DrawOp :=
  let tT := chainedThresholds cfg.tSB cfg.tB cfg.tN cfg.tBU
  let s : ℚ := clamp100 (score : ℚ)
  let bgFile := pickBgFile s tT.1 tT.2.1 tT.2.2.1 tT.2.2.2
  let box := drawRect W H cfg.left cfg.right cfg.top cfg.bottom
  let r := gaugeR box
  let cx := gaugeCx box
  let cy := gaugeCy box
  let tw := trackWpx r
  let vw := valueWpx r
  let te := thetaOf s
  let cap := capAngleOf vw r
  let nd := needleScaled r (deriveNeedleScale cfg)
  let valueOps :=
    if te ≤ startAngle + cap then
      [DrawOp.valueArc cx cy r startAngle te vw redFill]
    else
      [DrawOp.valueArc cx cy r startAngle (startAngle + cap) vw redFill,
       DrawOp.valueArc cx cy r (startAngle + cap) te vw
         (.conic (startAngle + cap + 1 / 10000))]
  [DrawOp.background bgFile W H]
    ++ (if avatarShown then [DrawOp.avatar cfg.pfpX cfg.pfpY (max 1 cfg.pfpSize)] else [])
    ++ [DrawOp.handleText ("@" ++ username) cfg.handleX cfg.handleY
          (max 8 cfg.handleFontPx) cfg.handleColor,
        DrawOp.track cx cy r startAngle endAngle tw]
    ++ valueOps
    ++ [DrawOp.needle cx cy te nd.1 nd.2 (max 2 (jround (r * deriveNeedleFrac cfg)))]

/-- renderCardPNG: same layers, but the value arc is the clamped cap arc
followed (when it extends past the cap) by the flat slices of the segment
loop; the handle text is empty when the username is empty. -/
def cardOps (cfg : RenderConfig) (score : ℤ) (username : String)
    (avatarShown : Bool) (W H : ℤ) : List DrawOp :=
  let tT := chainedThresholds cfg.tSB cfg.tB cfg.tN cfg.tBU
  let s : ℚ := clamp100 (jsOrQ (score : ℚ) 0)
  let bgFile := pickBgFile s tT.1 tT.2.1 tT.2.2.1 tT.2.2.2
  let box := drawRect W H cfg.left cfg.right cfg.top cfg.bottom
  let r := gaugeR box
  let cx := gaugeCx box
  let cy := gaugeCy box
  let tw := trackWpx r
  let vw := valueWpx r
  let te := thetaOf s
  let cap := capAngleOf vw r
  let nd := needleScaled r (deriveNeedleScale cfg)
  let valueOps :=
    [DrawOp.valueArc cx cy r startAngle (min te (startAngle + cap)) vw redFill]
    ++ (if startAngle + cap < te then
          (sliceSegs te (startAngle + cap) ((endAngle - startAngle) - cap)).map
            (fun sg => DrawOp.valueArc cx cy r sg.a0 sg.a1 vw (.flat sg.color))
        else [])
  [DrawOp.background bgFile W H]
    ++ (if avatarShown then [DrawOp.avatar cfg.pfpX cfg.pfpY (max 1 cfg.pfpSize)] else [])
    ++ [DrawOp.handleText (if username = "" then "" else "@" ++ username) cfg.handleX
          cfg.handleY (max 8 cfg.handleFontPx) cfg.handleColor,
        DrawOp.track cx cy r startAngle endAngle tw]
    ++ valueOps
    ++ [DrawOp.needle cx cy te nd.1 nd.2 (max 2 (jround (r * deriveNeedleFrac cfg)))]

/-- The value of sess.lastScore as renderGaugeBuffer sees it: absent (a fresh
session), null (stored by a no-score /fetch), or a number. -/
inductive StoredScore
  | undef
  | nullv
  | num (q : ℚ)

/-- `const { lastScore = 50 } = sess`: the default applies only when the
field is absent, not when it is null. -/
def lastScoreDefaulted : StoredScore → StoredScore
  | .undef => .num 50
  | s => s

/-- `Number(lastScore)`: null converts to 0. -/
def numberOf : StoredScore → ℚ
  | .undef => 0
  | .nullv => 0
  | .num q => q

/-- `const s = Math.max(0, Math.min(100, Number(lastScore) || 0))`. -/
def gaugeScore (stored : StoredScore) : ℚ :=
  clamp100 (jsOrQ (numberOf (lastScoreDefaulted stored)) 0)

/-- `sess.lastScore = displayScore` as stored by the /fetch handler. -/
def storedOf : Option ℤ → StoredScore
  | none => .nullv
  | some v => .num (v : ℚ)

/-- renderGaugeBuffer of server.js: background (picked from the clamped
stored score), optional avatar, handle text, needle — no track and no value
arc. -/
def gaugeOps (cfg : RenderConfig) (stored : StoredScore) (username : String)
    (avatarShown : Bool) (W H : ℤ) : List DrawOp :=
  let tT := chainedThresholds cfg.tSB cfg.tB cfg.tN cfg.tBU
  let s := gaugeScore stored
  let bgFile := pickBgFile s tT.1 tT.2.1 tT.2.2.1 tT.2.2.2
  let box := drawRect W H cfg.left cfg.right cfg.top cfg.bottom
  let r := gaugeR box
  let cx := gaugeCx box
  let cy := gaugeCy box
  let te := thetaOf s
  let nd := needleScaled r (deriveNeedleScale cfg)
  [DrawOp.background bgFile W H]
    ++ (if avatarShown then [DrawOp.avatar cfg.pfpX cfg.pfpY (max 1 cfg.pfpSize)] else [])
    ++ [DrawOp.handleText ("@" ++ username) cfg.handleX cfg.handleY
          (max 8 cfg.handleFontPx) cfg.handleColor,
        DrawOp.needle cx cy te nd.1 nd.2 (max 2 (jround (r * deriveNeedleFrac cfg)))]

/-- renderCardPNG throws when the background asset file does not exist; a
failed avatar fetch or decode only omits the avatar layer. -/
def renderCardPNGResult (bgExists : Bool) (cfg : RenderConfig) (score : ℤ)
    (username : String) (avatarOk : Bool) (W H : ℤ) : Except String (List DrawOp) :=
  if bgExists then .ok (cardOps cfg score username avatarOk W H)
  else .error "Missing background asset"

inductive Layer
  | backgroundL
  | avatarL
  | handleL
  | trackL
  | valueL
  | needleL
deriving DecidableEq

def layerOf : DrawOp → Layer
  | .background .. => .backgroundL
  | .avatar .. => .avatarL
  | .handleText .. => .handleL
  | .track .. => .trackL
  | .valueArc .. => .valueL
  | .needle .. => .needleL

def isValue : DrawOp → Bool
  | .valueArc .. => true
  | _ => false

def isTrackOp : DrawOp → Bool
  | .track .. => true
  | _ => false

def isAvatarOp : DrawOp → Bool
  | .avatar .. => true
  | _ => false

def arcStart : DrawOp → ℚ
  | .valueArc _ _ _ a0 _ _ _ => a0
  | _ => 0

def arcEnd : DrawOp → ℚ
  | .valueArc _ _ _ _ a1 _ _ => a1
  | _ => 0

def valueOpsOf (l : List DrawOp) : List DrawOp := l.filter isValue

def nonValueOpsOf (l : List DrawOp) : List DrawOp := l.filter (fun o => !isValue o)

/-- The layer shape shared by the client canvas and renderCardPNG: value
ops (one or more) sit between the track and the needle. -/
def layerSeq (av : Bool) (n : ℕ) : List Layer :=
  [Layer.backgroundL] ++ (if av then [Layer.avatarL] else [])
    ++ [Layer.handleL, Layer.trackL] ++ List.replicate n Layer.valueL ++ [Layer.needleL]

/-- A sample parsed configuration (the documented env defaults with zero
insets). -/
def cfg0 : RenderConfig :=
  ⟨0, 0, 0, 0, 20, 40, 60, 80, 1, 25 / 1000, 175, 200, 100, 300, 200, 70, "#ffffff"⟩

theorem jsOrQ_zero (x : ℚ) : jsOrQ x 0 = x := by
  unfold jsOrQ
  split_ifs with h
  · exact h.symm
  · rfl

/-! ### Decomposition of the two full pipelines -/

def sOf (score : ℤ) : ℚ := clamp100 (score : ℚ)

def boxOf (cfg : RenderConfig) (W H : ℤ) : Box :=
  drawRect W H cfg.left cfg.right cfg.top cfg.bottom

def rOf (cfg : RenderConfig) (W H : ℤ) : ℚ := gaugeR (boxOf cfg W H)

def capOf (cfg : RenderConfig) (W H : ℤ) : ℚ :=
  capAngleOf (valueWpx (rOf cfg W H)) (rOf cfg W H)

def bgOf (cfg : RenderConfig) (score : ℤ) : String :=
  pickBgFile (sOf score) (chainedThresholds cfg.tSB cfg.tB cfg.tN cfg.tBU).1
    (chainedThresholds cfg.tSB cfg.tB cfg.tN cfg.tBU).2.1
    (chainedThresholds cfg.tSB cfg.tB cfg.tN cfg.tBU).2.2.1
    (chainedThresholds cfg.tSB cfg.tB cfg.tN cfg.tBU).2.2.2

/-- The shared layer run before the value arc: background, optional avatar,
handle text, track. -/
def preOps (cfg : RenderConfig) (score : ℤ) (u : String) (av : Bool)
    (W H : ℤ) : List DrawOp :=
  [DrawOp.background (bgOf cfg score) W H]
    ++ (if av then [DrawOp.avatar cfg.pfpX cfg.pfpY (max 1 cfg.pfpSize)] else [])
    ++ [DrawOp.handleText ("@" ++ u) cfg.handleX cfg.handleY
          (max 8 cfg.handleFontPx) cfg.handleColor,
        DrawOp.track (gaugeCx (boxOf cfg W H)) (gaugeCy (boxOf cfg W H))
          (rOf cfg W H) startAngle endAngle (trackWpx (rOf cfg W H))]

def needleOp (cfg : RenderConfig) (score : ℤ) (W H : ℤ) : DrawOp :=
  DrawOp.needle (gaugeCx (boxOf cfg W H)) (gaugeCy (boxOf cfg W H))
    (thetaOf (sOf score))
    (needleScaled (rOf cfg W H) (deriveNeedleScale cfg)).1
    (needleScaled (rOf cfg W H) (deriveNeedleScale cfg)).2
    (max 2 (jround (rOf cfg W H * deriveNeedleFrac cfg)))

def clientValue (cfg : RenderConfig) (score : ℤ) (W H : ℤ) : List DrawOp :=
  if thetaOf (sOf score) ≤ startAngle + capOf cfg W H then
    [DrawOp.valueArc (gaugeCx (boxOf cfg W H)) (gaugeCy (boxOf cfg W H))
      (rOf cfg W H) startAngle (thetaOf (sOf score)) (valueWpx (rOf cfg W H)) redFill]
  else
    [DrawOp.valueArc (gaugeCx (boxOf cfg W H)) (gaugeCy (boxOf cfg W H))
      (rOf cfg W H) startAngle (startAngle + capOf cfg W H)
      (valueWpx (rOf cfg W H)) redFill,
     DrawOp.valueArc (gaugeCx (boxOf cfg W H)) (gaugeCy (boxOf cfg W H))
      (rOf cfg W H) (startAngle + capOf cfg W H) (thetaOf (sOf score))
      (valueWpx (rOf cfg W H)) (.conic (startAngle + capOf cfg W H + 1 / 10000))]

def cardValue (cfg : RenderConfig) (score : ℤ) (W H : ℤ) : List DrawOp :=
  [DrawOp.valueArc (gaugeCx (boxOf cfg W H)) (gaugeCy (boxOf cfg W H))
    (rOf cfg W H) startAngle (min (thetaOf (sOf score)) (startAngle + capOf cfg W H))
    (valueWpx (rOf cfg W H)) redFill]
  ++ (if startAngle + capOf cfg W H < thetaOf (sOf score) then
        (sliceSegs (thetaOf (sOf score)) (startAngle + capOf cfg W H)
            ((endAngle - startAngle) - capOf cfg W H)).map
          (fun sg => DrawOp.valueArc (gaugeCx (boxOf cfg W H))
            (gaugeCy (boxOf cfg W H)) (rOf cfg W H) sg.a0 sg.a1
            (valueWpx (rOf cfg W H)) (.flat sg.color))
      else [])

theorem clientOps_decomp (cfg : RenderConfig) (score : ℤ) (u : String)
    (av : Bool) (W H : ℤ) :
    clientOps cfg score u av W H
      = preOps cfg score u av W H ++ clientValue cfg score W H
          ++ [needleOp cfg score W H] := by
  simp only [clientOps, preOps, clientValue, needleOp, sOf, boxOf, rOf, capOf, bgOf,
    List.append_assoc, List.cons_append, List.nil_append]

theorem cardOps_decomp (cfg : RenderConfig) (score : ℤ) (u : String)
    (av : Bool) (W H : ℤ) (hu : u ≠ "") :
    cardOps cfg score u av W H
      = preOps cfg score u av W H ++ cardValue cfg score W H
          ++ [needleOp cfg score W H] := by
  simp only [cardOps, preOps, cardValue, needleOp, sOf, boxOf, rOf, capOf, bgOf,
    jsOrQ_zero, if_neg hu, List.append_assoc, List.cons_append, List.nil_append]

/-- The cardOps decomposition without the nonempty-username hypothesis: the
handle text keeps its own conditional. -/
theorem cardOps_decomp_raw (cfg : RenderConfig) (score : ℤ) (u : String)
    (av : Bool) (W H : ℤ) :
    cardOps cfg score u av W H
      = [DrawOp.background (bgOf cfg score) W H]
          ++ (if av then [DrawOp.avatar cfg.pfpX cfg.pfpY (max 1 cfg.pfpSize)] else [])
          ++ [DrawOp.handleText (if u = "" then "" else "@" ++ u) cfg.handleX
                cfg.handleY (max 8 cfg.handleFontPx) cfg.handleColor,
              DrawOp.track (gaugeCx (boxOf cfg W H)) (gaugeCy (boxOf cfg W H))
                (rOf cfg W H) startAngle endAngle (trackWpx (rOf cfg W H))]
          ++ cardValue cfg score W H ++ [needleOp cfg score W H] := by
  simp only [cardOps, cardValue, needleOp, sOf, boxOf, rOf, capOf, bgOf, jsOrQ_zero,
    List.append_assoc, List.cons_append, List.nil_append]

theorem layerOf_needleOp (cfg : RenderConfig) (score : ℤ) (W H : ℤ) :
    layerOf (needleOp cfg score W H) = Layer.needleL := rfl

theorem preOps_no_value (cfg : RenderConfig) (score : ℤ) (u : String)
    (av : Bool) (W H : ℤ) :
    ∀ o ∈ preOps cfg score u av W H, isValue o = false := by
  intro o ho
  unfold preOps at ho
  rcases av
  · simp at ho
    rcases ho with h | h | h <;> subst h <;> rfl
  · simp at ho
    rcases ho with h | h | h | h <;> subst h <;> rfl

theorem clientValue_all_value (cfg : RenderConfig) (score : ℤ) (W H : ℤ) :
    ∀ o ∈ clientValue cfg score W H, isValue o = true := by
  intro o ho
  unfold clientValue at ho
  split_ifs at ho <;> simp at ho
  · subst ho; rfl
  · rcases ho with h | h <;> subst h <;> rfl

theorem cardValue_all_value (cfg : RenderConfig) (score : ℤ) (W H : ℤ) :
    ∀ o ∈ cardValue cfg score W H, isValue o = true := by
  intro o ho
  unfold cardValue at ho
  rcases List.mem_append.mp ho with h | h
  · simp at h; subst h; rfl
  · split_ifs at h
    · obtain ⟨sg, _, hsg⟩ := List.mem_map.mp h
      subst hsg; rfl
    · simp at h

theorem map_layerOf_all_value {l : List DrawOp}
    (h : ∀ o ∈ l, isValue o = true) :
    l.map layerOf = List.replicate l.length Layer.valueL := by
  induction l with
  | nil => rfl
  | cons a l ih =>
    have ha : isValue a = true := h a (List.mem_cons_self a l)
    have hla : layerOf a = Layer.valueL := by
      cases a <;> simp [isValue] at ha ⊢ <;> rfl
    simp [hla, List.replicate_succ, ih (fun o ho => h o (List.mem_cons_of_mem a ho))]

theorem getLast?_map_general {α β : Type} (f : α → β) (l : List α) :
    (l.map f).getLast? = l.getLast?.map f := by
  induction l with
  | nil => rfl
  | cons a l ih =>
    cases l with
    | nil => rfl
    | cons b m =>
      simp only [List.map_cons, List.getLast?_cons_cons] at *
      exact ih

theorem getLast?_append_right {α : Type} (l₁ l₂ : List α) (h : l₂ ≠ []) :
    (l₁ ++ l₂).getLast? = l₂.getLast? := by
  induction l₁ with
  | nil => simp
  | cons a t ih =>
    obtain ⟨b, m, hbm⟩ := List.exists_cons_of_ne_nil (l := t ++ l₂) (by
      intro hc
      exact h (List.append_eq_nil.mp hc).2)
    rw [List.cons_append, hbm, List.getLast?_cons_cons, ← hbm, ih]

theorem filter_all_true {α : Type} (p : α → Bool) (l : List α)
    (h : ∀ o ∈ l, p o = true) : l.filter p = l := by
  induction l with
  | nil => rfl
  | cons a t ih =>
    rw [List.filter_cons, if_pos (h a (List.mem_cons_self a t)),
      ih (fun o ho => h o (List.mem_cons_of_mem a ho))]

theorem filter_all_false {α : Type} (p : α → Bool) (l : List α)
    (h : ∀ o ∈ l, p o = false) : l.filter p = [] := by
  induction l with
  | nil => rfl
  | cons a t ih =>
    rw [List.filter_cons, if_neg (by rw [h a (List.mem_cons_self a t)]; simp),
      ih (fun o ho => h o (List.mem_cons_of_mem a ho))]

theorem isValue_not_avatar {o : DrawOp} (h : isValue o = true) :
    isAvatarOp o = false := by
  cases o <;> simp [isValue, isAvatarOp] at h ⊢

theorem thetaOf_le_endAngle {s : ℚ} (h : s ≤ 100) : thetaOf s ≤ endAngle := by
  unfold thetaOf startAngle endAngle
  have hpi : (0 : ℚ) < jsPI := by norm_num [jsPI]
  nlinarith

theorem sOf_le_100 (score : ℤ) : sOf score ≤ 100 :=
  max_le (by norm_num) (min_le_left _ _)

theorem rOf_ge_one (cfg : RenderConfig) (W H : ℤ) : 1 ≤ rOf cfg W H :=
  le_max_left _ _

theorem clientValue_cover (cfg : RenderConfig) (score : ℤ) (W H : ℤ) :
    (clientValue cfg score W H).head?.map arcStart = some startAngle
    ∧ (clientValue cfg score W H).getLast?.map arcEnd = some (thetaOf (sOf score)) := by
  unfold clientValue
  split_ifs with h
  · exact ⟨by simp [arcStart], by simp [arcEnd]⟩
  · refine ⟨by simp [arcStart], ?_⟩
    rw [List.getLast?_cons_cons]
    simp [arcEnd]

theorem cardValue_cover (cfg : RenderConfig) (score : ℤ) (W H : ℤ) :
    (cardValue cfg score W H).head?.map arcStart = some startAngle
    ∧ (cardValue cfg score W H).getLast?.map arcEnd = some (thetaOf (sOf score)) := by
  unfold cardValue
  refine ⟨by simp [arcStart], ?_⟩
  split_ifs with h
  · have hus0 : startAngle + capOf cfg W H
        + ((0 : ℕ) : ℚ) / 24 * ((endAngle - startAngle) - capOf cfg W H)
        < thetaOf (sOf score) := by
      push_cast
      rw [show ((0 : ℚ) / 24) = 0 by norm_num, zero_mul, add_zero]
      exact h
    have hteb : thetaOf (sOf score)
        ≤ (startAngle + capOf cfg W H) + ((endAngle - startAngle) - capOf cfg W H) := by
      have h100 := thetaOf_le_endAngle (sOf_le_100 score)
      have hexp : (startAngle + capOf cfg W H)
          + ((endAngle - startAngle) - capOf cfg W H) = endAngle := by ring
      rw [hexp]
      exact h100
    obtain ⟨hne, hhead, hlast⟩ := sliceSegsAux_cover (thetaOf (sOf score))
      (startAngle + capOf cfg W H) ((endAngle - startAngle) - capOf cfg W H)
      24 0 (by norm_num) hus0 hteb
    have hmapne : (sliceSegs (thetaOf (sOf score)) (startAngle + capOf cfg W H)
        ((endAngle - startAngle) - capOf cfg W H)).map
          (fun sg => DrawOp.valueArc (gaugeCx (boxOf cfg W H))
            (gaugeCy (boxOf cfg W H)) (rOf cfg W H) sg.a0 sg.a1
            (valueWpx (rOf cfg W H)) (.flat sg.color)) ≠ [] := by
      simpa using hne
    rw [getLast?_append_right _ _ hmapne, getLast?_map_general, Option.map_map]
    have hcomp : ∀ o : Option Seg,
        o.map (arcEnd ∘ fun sg => DrawOp.valueArc (gaugeCx (boxOf cfg W H))
          (gaugeCy (boxOf cfg W H)) (rOf cfg W H) sg.a0 sg.a1
          (valueWpx (rOf cfg W H)) (.flat sg.color))
        = o.map Seg.a1 := by
      intro o
      cases o <;> rfl
    rw [hcomp]
    exact hlast
  · have hle : thetaOf (sOf score) ≤ startAngle + capOf cfg W H := le_of_not_lt h
    simp [arcEnd, min_eq_left hle]

theorem preOps_layers (cfg : RenderConfig) (score : ℤ) (u : String)
    (av : Bool) (W H : ℤ) :
    (preOps cfg score u av W H).map layerOf
      = [Layer.backgroundL] ++ (if av then [Layer.avatarL] else [])
          ++ [Layer.handleL, Layer.trackL] := by
  unfold preOps
  rcases av <;> simp [layerOf]

/-! ### C6: the backend split -/

/-- C6 amended.  For identical inputs, the client canvas pipeline and the
renderCardPNG raster pipeline (for a nonempty username) perform the same
layer sequence (background, optional avatar, handle text, track, one or more
value-arc strokes, needle) with the same geometry: the non-value draw calls
of the two pipelines are identical, and the value-arc strokes of both span
exactly from the track start angle to thetaEnd, diverging only in how that
span is filled (conic gradient versus flat slices).  The express raster
renderer renderGaugeBuffer, however, draws no track and no value arc at all:
its layer sequence is background, optional avatar, handle, needle. -/
theorem backend_refinement (cfg : RenderConfig) (score : ℤ) (u : String)
    (av : Bool) (W H : ℤ) (hu : u ≠ "") :
    nonValueOpsOf (clientOps cfg score u av W H)
      = nonValueOpsOf (cardOps cfg score u av W H)
    ∧ valueOpsOf (clientOps cfg score u av W H) = clientValue cfg score W H
    ∧ valueOpsOf (cardOps cfg score u av W H) = cardValue cfg score W H
    ∧ (clientValue cfg score W H).head?.map arcStart = some startAngle
    ∧ (cardValue cfg score W H).head?.map arcStart = some startAngle
    ∧ (clientValue cfg score W H).getLast?.map arcEnd = some (thetaOf (sOf score))
    ∧ (cardValue cfg score W H).getLast?.map arcEnd = some (thetaOf (sOf score))
    ∧ (clientOps cfg score u av W H).map layerOf
        = layerSeq av (clientValue cfg score W H).length
    ∧ (cardOps cfg score u av W H).map layerOf
        = layerSeq av (cardValue cfg score W H).length
    ∧ (gaugeOps cfg (.num (score : ℚ)) u av W H).map layerOf
        = [Layer.backgroundL] ++ (if av then [Layer.avatarL] else [])
            ++ [Layer.handleL, Layer.needleL] := by
  have hCdec := clientOps_decomp cfg score u av W H
  have hSdec := cardOps_decomp cfg score u av W H hu
  have hpre := preOps_no_value cfg score u av W H
  have hCval := clientValue_all_value cfg score W H
  have hSval := cardValue_all_value cfg score W H
  have hneedle : isValue (needleOp cfg score W H) = false := rfl
  have hCnv : nonValueOpsOf (clientOps cfg score u av W H)
      = preOps cfg score u av W H ++ [needleOp cfg score W H] := by
    rw [hCdec]
    unfold nonValueOpsOf
    rw [List.filter_append, List.filter_append,
      filter_all_true _ _ (fun o ho => by rw [hpre o ho]; rfl),
      filter_all_false _ _ (fun o ho => by rw [hCval o ho]; rfl)]
    simp [hneedle]
  have hSnv : nonValueOpsOf (cardOps cfg score u av W H)
      = preOps cfg score u av W H ++ [needleOp cfg score W H] := by
    rw [hSdec]
    unfold nonValueOpsOf
    rw [List.filter_append, List.filter_append,
      filter_all_true _ _ (fun o ho => by rw [hpre o ho]; rfl),
      filter_all_false _ _ (fun o ho => by rw [hSval o ho]; rfl)]
    simp [hneedle]
  have hCvo : valueOpsOf (clientOps cfg score u av W H) = clientValue cfg score W H := by
    rw [hCdec]
    unfold valueOpsOf
    rw [List.filter_append, List.filter_append, filter_all_false _ _ hpre,
      filter_all_true _ _ hCval]
    simp [isValue, needleOp]
  have hSvo : valueOpsOf (cardOps cfg score u av W H) = cardValue cfg score W H := by
    rw [hSdec]
    unfold valueOpsOf
    rw [List.filter_append, List.filter_append, filter_all_false _ _ hpre,
      filter_all_true _ _ hSval]
    simp [isValue, needleOp]
  refine ⟨hCnv.trans hSnv.symm, hCvo, hSvo,
    (clientValue_cover cfg score W H).1, (cardValue_cover cfg score W H).1,
    (clientValue_cover cfg score W H).2, (cardValue_cover cfg score W H).2,
    ?_, ?_, ?_⟩
  · rw [hCdec]
    simp only [List.map_append, preOps_layers, map_layerOf_all_value hCval,
      List.map_cons, List.map_nil, layerOf_needleOp]
    unfold layerSeq
    simp [List.append_assoc]
  · rw [hSdec]
    simp only [List.map_append, preOps_layers, map_layerOf_all_value hSval,
      List.map_cons, List.map_nil, layerOf_needleOp]
    unfold layerSeq
    simp [List.append_assoc]
  · rcases av <;> simp [gaugeOps, layerOf]

/-- Witness for C6 at the sample configuration, score 50, username "a",
avatar shown, 600 x 600. -/
theorem backend_refinement_witness :
    ("a" : String) ≠ ""
    ∧ nonValueOpsOf (clientOps cfg0 50 "a" true 600 600)
        = nonValueOpsOf (cardOps cfg0 50 "a" true 600 600)
    ∧ (cardValue cfg0 50 600 600).getLast?.map arcEnd = some (thetaOf (sOf 50)) := by
  have h := backend_refinement cfg0 50 "a" true 600 600 (by decide)
  exact ⟨by decide, h.1, h.2.2.2.2.2.2.1⟩

/-- C6 counterexample.  The express raster backend renderGaugeBuffer does not
perform the same layer sequence as the client canvas: at the sample
configuration it draws background, avatar, handle, needle, with no track and
no value arc. -/
theorem gauge_ssr_layers_differ :
    (gaugeOps cfg0 (.num 50) "a" true 600 600).map layerOf
      ≠ (clientOps cfg0 50 "a" true 600 600).map layerOf := by
  have hg : (gaugeOps cfg0 (.num 50) "a" true 600 600).map layerOf
      = [Layer.backgroundL, Layer.avatarL, Layer.handleL, Layer.needleL] := by
    simp [gaugeOps, layerOf]
  have hlong : ¬ (thetaOf (sOf 50) ≤ startAngle + capOf cfg0 600 600) := by
    norm_num [thetaOf, sOf, clamp100, startAngle, endAngle, capOf, capAngleOf,
      valueWpx, rOf, boxOf, drawRect, gaugeR, cfg0, jround, jsPI]
  have hcv : (clientValue cfg0 50 600 600).map layerOf
      = [Layer.valueL, Layer.valueL] := by
    unfold clientValue
    rw [if_neg hlong]
    simp [layerOf]
  have hc : (clientOps cfg0 50 "a" true 600 600).map layerOf
      = [Layer.backgroundL, Layer.avatarL, Layer.handleL, Layer.trackL,
         Layer.valueL, Layer.valueL, Layer.needleL] := by
    rw [clientOps_decomp]
    simp only [List.map_append, preOps_layers, hcv, List.map_cons, List.map_nil,
      layerOf_needleOp]
    simp
  rw [hg, hc]
  decide

/-! ### C3: the no-score condition -/

/-- C3 amended.  When the summed tally total is 0 the aggregator falls back
to the submitted-post count as denominator; when that count is also 0 it
yields no score (null, distinct from every number) and the /fetch handler
responds with the debug page instead of the gauge page.  However the stored
null score does not prevent gauge rendering: renderGaugeBuffer treats a null
stored score as 0 and still renders a full gauge image (zero-score needle
and background), for any configuration. -/
theorem no_score_fallback (x : TallyInput) (count : ℕ) (h : tallySumT x = 0) :
    (count = 0 → computeDisplayScore x count = none ∧ fetchResponse x count = .debugPage)
    ∧ (0 < count → computeDisplayScore x count
        = some (jround ((inP x - inNeg x + (count : ℚ)) / (2 * count) * 100)))
    ∧ gaugeScore .nullv = 0
    ∧ (∀ cfg u av W H, (gaugeOps cfg .nullv u av W H).map layerOf
        = [Layer.backgroundL] ++ (if av then [Layer.avatarL] else [])
            ++ [Layer.handleL, Layer.needleL]) := by
  refine ⟨?_, ?_, ?_, ?_⟩
  · intro hc
    subst hc
    have hnone : computeDisplayScore x 0 = none := by
      simp only [computeDisplayScore]
      rw [if_pos h]
      norm_num
    exact ⟨hnone, by unfold fetchResponse; rw [hnone]⟩
  · intro hc
    have hcq : (0 : ℚ) < (count : ℚ) := by exact_mod_cast hc
    simp only [computeDisplayScore]
    rw [if_pos h, if_pos hcq]
  · norm_num [gaugeScore, lastScoreDefaulted, numberOf, jsOrQ, clamp100]
  · intro cfg u av W H
    rcases av <;> simp [gaugeOps, layerOf]

/-- Witness for C3 with an empty tally array and 7 submitted posts: the
denominator falls back to 7 and the score is 50. -/
theorem no_score_fallback_witness :
    tallySumT (.many []) = 0 ∧ computeDisplayScore (.many []) 7 = some 50 := by
  have h0 : tallySumT (.many []) = 0 := by
    norm_num [tallySumT, inP, inNeu, inNeg, sumP, sumNeu, sumNeg]
  refine ⟨h0, ?_⟩
  rw [(no_score_fallback (.many []) 7 h0).2.1 (by norm_num)]
  norm_num [inP, inNeg, sumP, sumNeg, jround]

/-- C3 counterexample.  With the empty webhook tally and 0 submitted posts
the aggregator yields no score and /fetch shows the debug page; but the very
session state it stores (a null score) still renders a gauge at the /gauge
endpoint: a zero-score, strongly-bearish gauge. -/
theorem zero_score_gauge_rendered :
    computeDisplayScore (.many []) 0 = none
    ∧ fetchResponse (.many []) 0 = .debugPage
    ∧ gaugeScore (storedOf (computeDisplayScore (.many []) 0)) = 0
    ∧ (gaugeOps cfg0 (storedOf (computeDisplayScore (.many []) 0)) "a" false 600 600).map
        layerOf = [Layer.backgroundL, Layer.handleL, Layer.needleL]
    ∧ (gaugeOps cfg0 (storedOf (computeDisplayScore (.many []) 0)) "a" false 600 600).head?
        = some (.background "strongly-bearish.png" 600 600) := by
  have hsum0 : tallySumT (.many []) = 0 := by
    norm_num [tallySumT, inP, inNeu, inNeg, sumP, sumNeu, sumNeg]
  have hnone : computeDisplayScore (.many []) 0 = none := by
    simp only [computeDisplayScore]
    rw [if_pos hsum0]
    norm_num
  have hz : gaugeScore (storedOf (computeDisplayScore (.many []) 0)) = 0 := by
    rw [hnone]
    norm_num [storedOf, gaugeScore, lastScoreDefaulted, numberOf, jsOrQ, clamp100]
  refine ⟨hnone, by unfold fetchResponse; rw [hnone], hz, ?_, ?_⟩
  · rw [hnone]
    simp [storedOf, gaugeOps, layerOf]
  · rw [hnone]
    simp only [storedOf, gaugeOps]
    norm_num [gaugeScore, lastScoreDefaulted, numberOf, jsOrQ, clamp100,
      chainedThresholds, cfg0, pickBgFile]

/-! ### C9: asset-failure semantics -/

/-- C9 counterexample.  A missing background asset aborts renderCardPNG with
an error instead of completing with a neutral fill. -/
theorem render_aborts_on_missing_background :
    renderCardPNGResult false cfg0 50 "a" true 600 600
      = .error "Missing background asset" := rfl

/-- C9 amended.  With the background present the raster render always
completes; a failed avatar load only omits the avatar layer (the remaining
draw calls are unchanged); but a missing background asset aborts the raster
render with an error rather than falling back to a neutral fill. -/
theorem render_asset_failure (cfg : RenderConfig) (score : ℤ) (u : String)
    (av : Bool) (W H : ℤ) :
    renderCardPNGResult true cfg score u av W H = .ok (cardOps cfg score u av W H)
    ∧ renderCardPNGResult false cfg score u av W H = .error "Missing background asset"
    ∧ cardOps cfg score u false W H
        = (cardOps cfg score u true W H).filter (fun o => !isAvatarOp o) := by
  refine ⟨rfl, rfl, ?_⟩
  have hval : ∀ o ∈ cardValue cfg score W H, (!isAvatarOp o) = true := by
    intro o ho
    rw [isValue_not_avatar (cardValue_all_value cfg score W H o ho)]
    rfl
  rw [cardOps_decomp_raw cfg score u false W H, cardOps_decomp_raw cfg score u true W H]
  simp only [List.filter_append, if_true, if_false]
  rw [filter_all_true _ _ hval]
  simp [isAvatarOp, needleOp]

end Compass
